import Mathlib

/-!
Verification of the per-pixel RAW-processing core of this repository:
`src/cuda/kernels/debayer_rggb_bilinear.cu` (two kernel variants) and
`src/cuda/kernels/color_pipeline.cu`.

The per-pixel computations are embedded shallowly.  Floating-point
arithmetic is modelled at three levels, each used where appropriate:

* an exact rational (`ℚ`) semantics for the structural claims (branch
  selection, border handling, pipeline composition, value bounds, and
  the equivalence of the two kernel variants under exact arithmetic);
* an `F32` type with `nan` / `inf` / `neginf` payloads and IEEE special
  value rules (finite values carried exactly) for the claims about
  `fminf` / `fmaxf` clamping of non-finite data;
* an exact binary32 round-to-nearest-even model (`roundF32 : ℚ → ℚ`)
  for the claim comparing multiply-by-reciprocal with direct division.

A CUDA kernel is a grid of independent per-pixel units; each kernel is
embedded as a function of the pixel coordinate `(x, y)` returning
`Option` of the written triplet (`none` = the unit returns without
writing).  Input buffers are functions `ℕ → ℕ` from flat index to the
16-bit sample value; the `PIX` macro is translated as is.
-/

namespace RawPipeline

/-- `PIX(in, x, y, w) = in[(x) + (y) * (w)]`: the flat addressing macro
shared by both kernel files. -/
def PIX (inb : ℕ → ℕ) (x y w : ℕ) : ℕ :=
  inb (x + y * w)

/-- `fminf(fmaxf(v, 0.0f), 1.0f)` over exact rationals: the output clamp
used at the end of every kernel. -/
def clampQ (v : ℚ) : ℚ :=
  min (max v 0) 1

/-- `__fmaf_rn(a, b, c)` over exact rationals (`a*b + c`; the single
IEEE rounding of the hardware FMA is the identity here). -/
def fmaf (a b c : ℚ) : ℚ :=
  a * b + c

/-- `normalize_pixel` from `debayer_rggb_bilinear.cu` (optimised
variant): `v = (int)val - black; return fmaxf((float)v * inv_range, 0.0f)`. -/
def normalize_pixel (val : ℕ) (black : ℤ) (inv_range : ℚ) : ℚ :=
  max ((((val : ℤ) - black : ℤ) : ℚ) * inv_range) 0

/-- `get_red` from the optimised (bit-trick) kernel variant. -/
def get_red (inb : ℕ → ℕ) (x y w : ℕ) (black : ℤ) (inv_range : ℚ) : ℚ :=
  if x &&& 1 = 0 ∧ y &&& 1 = 0 then
    normalize_pixel (PIX inb x y w) black inv_range
  else if ¬ x &&& 1 = 0 ∧ y &&& 1 = 0 then
    (normalize_pixel (PIX inb (x - 1) y w) black inv_range +
     normalize_pixel (PIX inb (x + 1) y w) black inv_range) * (1 / 2)
  else if x &&& 1 = 0 ∧ ¬ y &&& 1 = 0 then
    (normalize_pixel (PIX inb x (y - 1) w) black inv_range +
     normalize_pixel (PIX inb x (y + 1) w) black inv_range) * (1 / 2)
  else
    (normalize_pixel (PIX inb (x - 1) (y - 1) w) black inv_range +
     normalize_pixel (PIX inb (x + 1) (y - 1) w) black inv_range +
     normalize_pixel (PIX inb (x - 1) (y + 1) w) black inv_range +
     normalize_pixel (PIX inb (x + 1) (y + 1) w) black inv_range) * (1 / 4)

/-- `get_green` from the optimised kernel variant. -/
def get_green (inb : ℕ → ℕ) (x y w : ℕ) (black : ℤ) (inv_range : ℚ) : ℚ :=
  if ¬ (x + y) &&& 1 = 0 then
    normalize_pixel (PIX inb x y w) black inv_range
  else
    (normalize_pixel (PIX inb (x - 1) y w) black inv_range +
     normalize_pixel (PIX inb (x + 1) y w) black inv_range +
     normalize_pixel (PIX inb x (y - 1) w) black inv_range +
     normalize_pixel (PIX inb x (y + 1) w) black inv_range) * (1 / 4)

/-- `get_blue` from the optimised kernel variant. -/
def get_blue (inb : ℕ → ℕ) (x y w : ℕ) (black : ℤ) (inv_range : ℚ) : ℚ :=
  if ¬ x &&& 1 = 0 ∧ ¬ y &&& 1 = 0 then
    normalize_pixel (PIX inb x y w) black inv_range
  else if x &&& 1 = 0 ∧ ¬ y &&& 1 = 0 then
    (normalize_pixel (PIX inb (x - 1) y w) black inv_range +
     normalize_pixel (PIX inb (x + 1) y w) black inv_range) * (1 / 2)
  else if ¬ x &&& 1 = 0 ∧ y &&& 1 = 0 then
    (normalize_pixel (PIX inb x (y - 1) w) black inv_range +
     normalize_pixel (PIX inb x (y + 1) w) black inv_range) * (1 / 2)
  else
    (normalize_pixel (PIX inb (x - 1) (y - 1) w) black inv_range +
     normalize_pixel (PIX inb (x + 1) (y - 1) w) black inv_range +
     normalize_pixel (PIX inb (x - 1) (y + 1) w) black inv_range +
     normalize_pixel (PIX inb (x + 1) (y + 1) w) black inv_range) * (1 / 4)

/-- The optimised `debayer16_to_xyz` kernel (first half of
`debayer_rggb_bilinear.cu`), as the per-pixel unit of work: `none` when
the unit returns at the border check, otherwise the clamped triplet it
writes at `out[(y*width+x)*3 .. +2]`. -/
def debayer16_to_xyz (inb : ℕ → ℕ) (width height : ℕ)
    (wb_r wb_g wb_b : ℚ) (black_level white_level : ℤ)
    (cam_to_xyz : Fin 12 → ℚ) (x y : ℕ) : Option (ℚ × ℚ × ℚ) :=
  if x < 1 ∨ width - 1 ≤ x ∨ y < 1 ∨ height - 1 ≤ y then none
  else
    let inv_range : ℚ := 1 / ((white_level - black_level : ℤ) : ℚ)
    let cam_r := get_red inb x y width black_level inv_range * wb_r
    let cam_g := get_green inb x y width black_level inv_range * wb_g
    let cam_b := get_blue inb x y width black_level inv_range * wb_b
    let xyz_x := fmaf (cam_to_xyz 0) cam_r
      (fmaf (cam_to_xyz 1) cam_g (fmaf (cam_to_xyz 2) cam_b (cam_to_xyz 3)))
    let xyz_y := fmaf (cam_to_xyz 4) cam_r
      (fmaf (cam_to_xyz 5) cam_g (fmaf (cam_to_xyz 6) cam_b (cam_to_xyz 7)))
    let xyz_z := fmaf (cam_to_xyz 8) cam_r
      (fmaf (cam_to_xyz 9) cam_g (fmaf (cam_to_xyz 10) cam_b (cam_to_xyz 11)))
    let exposure : ℚ := 3.5
    let srgb_r := fmaf 3.2404542 xyz_x
      (fmaf (-1.5371385) xyz_y ((-0.4985314) * xyz_z)) * exposure
    let srgb_g := fmaf (-0.9692660) xyz_x
      (fmaf 1.8760108 xyz_y (0.0415560 * xyz_z)) * exposure
    let srgb_b := fmaf 0.0556434 xyz_x
      (fmaf (-0.2040259) xyz_y (1.0572252 * xyz_z)) * exposure
    some (clampQ srgb_r, clampQ srgb_g, clampQ srgb_b)

/-- `apply_color_pipeline` from `color_pipeline.cu`, as the per-pixel
unit of work on an already-demosaiced interleaved RGB buffer. -/
def apply_color_pipeline (rgb_in : ℕ → ℕ) (width height : ℕ)
    (wb_r wb_g wb_b : ℚ) (black_level white_level : ℤ)
    (cam_to_xyz : Fin 12 → ℚ) (x y : ℕ) : Option (ℚ × ℚ × ℚ) :=
  if width ≤ x ∨ height ≤ y then none
  else
    let idx := (y * width + x) * 3
    let inv_range : ℚ := 1 / ((white_level - black_level : ℤ) : ℚ)
    let r_raw := rgb_in idx
    let g_raw := rgb_in (idx + 1)
    let b_raw := rgb_in (idx + 2)
    let r_norm := max ((((r_raw : ℤ) - black_level : ℤ) : ℚ) * inv_range) 0
    let g_norm := max ((((g_raw : ℤ) - black_level : ℤ) : ℚ) * inv_range) 0
    let b_norm := max ((((b_raw : ℤ) - black_level : ℤ) : ℚ) * inv_range) 0
    let cam_r := r_norm * wb_r
    let cam_g := g_norm * wb_g
    let cam_b := b_norm * wb_b
    let xyz_x := fmaf (cam_to_xyz 0) cam_r
      (fmaf (cam_to_xyz 1) cam_g (fmaf (cam_to_xyz 2) cam_b (cam_to_xyz 3)))
    let xyz_y := fmaf (cam_to_xyz 4) cam_r
      (fmaf (cam_to_xyz 5) cam_g (fmaf (cam_to_xyz 6) cam_b (cam_to_xyz 7)))
    let xyz_z := fmaf (cam_to_xyz 8) cam_r
      (fmaf (cam_to_xyz 9) cam_g (fmaf (cam_to_xyz 10) cam_b (cam_to_xyz 11)))
    let exposure : ℚ := 3.5
    let srgb_r := fmaf 3.2404542 xyz_x
      (fmaf (-1.5371385) xyz_y ((-0.4985314) * xyz_z)) * exposure
    let srgb_g := fmaf (-0.9692660) xyz_x
      (fmaf 1.8760108 xyz_y (0.0415560 * xyz_z)) * exposure
    let srgb_b := fmaf 0.0556434 xyz_x
      (fmaf (-0.2040259) xyz_y (1.0572252 * xyz_z)) * exposure
    some (clampQ srgb_r, clampQ srgb_g, clampQ srgb_b)

namespace V2

/-- The per-pixel `normalize` lambda shared by the helpers of the plain
(second) kernel variant: `v = (int)val - black; if (v < 0) v = 0;
return (float)v / range`. -/
def normalize (val : ℕ) (black : ℤ) (range : ℚ) : ℚ :=
  ((max ((val : ℤ) - black) 0 : ℤ) : ℚ) / range

/-- `get_red` from the plain (modulo / division) kernel variant. -/
def get_red (inb : ℕ → ℕ) (x y w : ℕ) (black : ℤ) (range : ℚ) : ℚ :=
  if x % 2 = 0 ∧ y % 2 = 0 then
    normalize (PIX inb x y w) black range
  else if x % 2 = 1 ∧ y % 2 = 0 then
    (normalize (PIX inb (x - 1) y w) black range +
     normalize (PIX inb (x + 1) y w) black range) / 2
  else if x % 2 = 0 ∧ y % 2 = 1 then
    (normalize (PIX inb x (y - 1) w) black range +
     normalize (PIX inb x (y + 1) w) black range) / 2
  else
    (normalize (PIX inb (x - 1) (y - 1) w) black range +
     normalize (PIX inb (x + 1) (y - 1) w) black range +
     normalize (PIX inb (x - 1) (y + 1) w) black range +
     normalize (PIX inb (x + 1) (y + 1) w) black range) / 4

/-- `get_green` from the plain kernel variant. -/
def get_green (inb : ℕ → ℕ) (x y w : ℕ) (black : ℤ) (range : ℚ) : ℚ :=
  if (x + y) % 2 = 1 then
    normalize (PIX inb x y w) black range
  else
    (normalize (PIX inb (x - 1) y w) black range +
     normalize (PIX inb (x + 1) y w) black range +
     normalize (PIX inb x (y - 1) w) black range +
     normalize (PIX inb x (y + 1) w) black range) / 4

/-- `get_blue` from the plain kernel variant. -/
def get_blue (inb : ℕ → ℕ) (x y w : ℕ) (black : ℤ) (range : ℚ) : ℚ :=
  if x % 2 = 1 ∧ y % 2 = 1 then
    normalize (PIX inb x y w) black range
  else if x % 2 = 0 ∧ y % 2 = 1 then
    (normalize (PIX inb (x - 1) y w) black range +
     normalize (PIX inb (x + 1) y w) black range) / 2
  else if x % 2 = 1 ∧ y % 2 = 0 then
    (normalize (PIX inb x (y - 1) w) black range +
     normalize (PIX inb x (y + 1) w) black range) / 2
  else
    (normalize (PIX inb (x - 1) (y - 1) w) black range +
     normalize (PIX inb (x + 1) (y - 1) w) black range +
     normalize (PIX inb (x - 1) (y + 1) w) black range +
     normalize (PIX inb (x + 1) (y + 1) w) black range) / 4

/-- The plain `debayer16_to_xyz` kernel (second half of
`debayer_rggb_bilinear.cu`): no FMA, direct division by the range, the
exposure multiplication as separate statements before the clamp. -/
def debayer16_to_xyz (inb : ℕ → ℕ) (width height : ℕ)
    (wb_r wb_g wb_b : ℚ) (black_level white_level : ℤ)
    (cam_to_xyz : Fin 12 → ℚ) (x y : ℕ) : Option (ℚ × ℚ × ℚ) :=
  if x < 1 ∨ width - 1 ≤ x ∨ y < 1 ∨ height - 1 ≤ y then none
  else
    let range : ℚ := ((white_level - black_level : ℤ) : ℚ)
    let cam_r := get_red inb x y width black_level range * wb_r
    let cam_g := get_green inb x y width black_level range * wb_g
    let cam_b := get_blue inb x y width black_level range * wb_b
    let xyz_x := cam_to_xyz 0 * cam_r + cam_to_xyz 1 * cam_g +
      cam_to_xyz 2 * cam_b + cam_to_xyz 3
    let xyz_y := cam_to_xyz 4 * cam_r + cam_to_xyz 5 * cam_g +
      cam_to_xyz 6 * cam_b + cam_to_xyz 7
    let xyz_z := cam_to_xyz 8 * cam_r + cam_to_xyz 9 * cam_g +
      cam_to_xyz 10 * cam_b + cam_to_xyz 11
    let srgb_r := 3.2404542 * xyz_x - 1.5371385 * xyz_y - 0.4985314 * xyz_z
    let srgb_g := -0.9692660 * xyz_x + 1.8760108 * xyz_y + 0.0415560 * xyz_z
    let srgb_b := 0.0556434 * xyz_x - 0.2040259 * xyz_y + 1.0572252 * xyz_z
    let exposure : ℚ := 3.5
    some (clampQ (srgb_r * exposure), clampQ (srgb_g * exposure),
      clampQ (srgb_b * exposure))

end V2

/-- The set of flat output-buffer indices written by the
`debayer16_to_xyz` unit of work for coordinate `(x, y)`: empty when the
unit hits the border check, otherwise the three components at
`idx = (y*width + x)*3`. -/
def unitWrites (width height x y : ℕ) : Finset ℕ :=
  if x < 1 ∨ width - 1 ≤ x ∨ y < 1 ∨ height - 1 ≤ y then ∅
  else {(y * width + x) * 3, (y * width + x) * 3 + 1, (y * width + x) * 3 + 2}

/-- The Color-Transform stage exactly as the spec words it, step by
step: 3x4 affine camera-to-XYZ matrix with the fourth column as an
unconditional additive offset, then the fixed XYZ-to-sRGB 3x3 matrix,
then the exposure factor 3.5, then the per-channel clamp to [0, 1]. -/
def colorTransformSpec (cam_to_xyz : Fin 12 → ℚ) (r g b : ℚ) : ℚ × ℚ × ℚ :=
  let xyz_x := cam_to_xyz 0 * r + cam_to_xyz 1 * g + cam_to_xyz 2 * b + cam_to_xyz 3
  let xyz_y := cam_to_xyz 4 * r + cam_to_xyz 5 * g + cam_to_xyz 6 * b + cam_to_xyz 7
  let xyz_z := cam_to_xyz 8 * r + cam_to_xyz 9 * g + cam_to_xyz 10 * b + cam_to_xyz 11
  let sr := 3.2404542 * xyz_x - 1.5371385 * xyz_y - 0.4985314 * xyz_z
  let sg := -0.9692660 * xyz_x + 1.8760108 * xyz_y + 0.0415560 * xyz_z
  let sb := 0.0556434 * xyz_x - 0.2040259 * xyz_y + 1.0572252 * xyz_z
  (clampQ (sr * 3.5), clampQ (sg * 3.5), clampQ (sb * 3.5))

end RawPipeline

namespace RawPipeline

lemma flatIndex_inj {w x x' y y' : ℕ} (hx : x < w) (hx' : x' < w)
    (h : y * w + x = y' * w + x') : x = x' ∧ y = y' := by
  have hw0 : 0 < w := lt_of_le_of_lt (Nat.zero_le x) hx
  have hxx : x = x' := by
    have hm := congrArg (fun n => n % w) h
    simpa [Nat.mul_comm, Nat.mul_add_mod, Nat.mod_eq_of_lt hx,
      Nat.mod_eq_of_lt hx'] using hm
  refine ⟨hxx, ?_⟩
  subst hxx
  have := Nat.add_right_cancel h
  exact Nat.eq_of_mul_eq_mul_right hw0 this

end RawPipeline

namespace RawPipeline

/-- C2: for every interior pixel of the demosaic pipeline, each channel
helper takes exactly one branch, determined solely by `(x mod 2, y mod 2)`,
with the RGGB neighbor sets: Red direct at (even,even), left/right at
(odd,even), up/down at (even,odd), four diagonals at (odd,odd); Green
direct when `x + y` is odd, four orthogonal neighbors otherwise; Blue the
parity mirror of Red. -/
theorem c2_rggb_parity_coverage (inb : ℕ → ℕ) (x y w : ℕ) (black : ℤ)
    (inv_range : ℚ) (hx : 1 ≤ x) (hy : 1 ≤ y) :
    (x % 2 = 0 → y % 2 = 0 →
      get_red inb x y w black inv_range =
        normalize_pixel (PIX inb x y w) black inv_range)
  ∧ (x % 2 = 1 → y % 2 = 0 →
      get_red inb x y w black inv_range =
        (normalize_pixel (PIX inb (x - 1) y w) black inv_range +
         normalize_pixel (PIX inb (x + 1) y w) black inv_range) * (1 / 2))
  ∧ (x % 2 = 0 → y % 2 = 1 →
      get_red inb x y w black inv_range =
        (normalize_pixel (PIX inb x (y - 1) w) black inv_range +
         normalize_pixel (PIX inb x (y + 1) w) black inv_range) * (1 / 2))
  ∧ (x % 2 = 1 → y % 2 = 1 →
      get_red inb x y w black inv_range =
        (normalize_pixel (PIX inb (x - 1) (y - 1) w) black inv_range +
         normalize_pixel (PIX inb (x + 1) (y - 1) w) black inv_range +
         normalize_pixel (PIX inb (x - 1) (y + 1) w) black inv_range +
         normalize_pixel (PIX inb (x + 1) (y + 1) w) black inv_range) * (1 / 4))
  ∧ ((x + y) % 2 = 1 →
      get_green inb x y w black inv_range =
        normalize_pixel (PIX inb x y w) black inv_range)
  ∧ ((x + y) % 2 = 0 →
      get_green inb x y w black inv_range =
        (normalize_pixel (PIX inb (x - 1) y w) black inv_range +
         normalize_pixel (PIX inb (x + 1) y w) black inv_range +
         normalize_pixel (PIX inb x (y - 1) w) black inv_range +
         normalize_pixel (PIX inb x (y + 1) w) black inv_range) * (1 / 4))
  ∧ (x % 2 = 1 → y % 2 = 1 →
      get_blue inb x y w black inv_range =
        normalize_pixel (PIX inb x y w) black inv_range)
  ∧ (x % 2 = 0 → y % 2 = 1 →
      get_blue inb x y w black inv_range =
        (normalize_pixel (PIX inb (x - 1) y w) black inv_range +
         normalize_pixel (PIX inb (x + 1) y w) black inv_range) * (1 / 2))
  ∧ (x % 2 = 1 → y % 2 = 0 →
      get_blue inb x y w black inv_range =
        (normalize_pixel (PIX inb x (y - 1) w) black inv_range +
         normalize_pixel (PIX inb x (y + 1) w) black inv_range) * (1 / 2))
  ∧ (x % 2 = 0 → y % 2 = 0 →
      get_blue inb x y w black inv_range =
        (normalize_pixel (PIX inb (x - 1) (y - 1) w) black inv_range +
         normalize_pixel (PIX inb (x + 1) (y - 1) w) black inv_range +
         normalize_pixel (PIX inb (x - 1) (y + 1) w) black inv_range +
         normalize_pixel (PIX inb (x + 1) (y + 1) w) black inv_range) * (1 / 4)) := by
  refine ⟨?_, ?_, ?_, ?_, ?_, ?_, ?_, ?_, ?_, ?_⟩ <;>
    first
      | (intro h1 h2
         simp [get_red, get_blue, Nat.and_one_is_mod, h1, h2])
      | (intro h1
         simp [get_green, Nat.and_one_is_mod, h1])

theorem c2_rggb_parity_coverage_witness :
    (1 : ℕ) ≤ 1 ∧
      get_red (fun i => i) 1 1 3 0 1 =
        (normalize_pixel (PIX (fun i => i) 0 0 3) 0 1 +
         normalize_pixel (PIX (fun i => i) 2 0 3) 0 1 +
         normalize_pixel (PIX (fun i => i) 0 2 3) 0 1 +
         normalize_pixel (PIX (fun i => i) 2 2 3) 0 1) * (1 / 4) :=
  ⟨le_rfl,
    (c2_rggb_parity_coverage (fun i => i) 1 1 3 0 1 le_rfl le_rfl).2.2.2.1 rfl rfl⟩

/-- C3: with `white_level > black_level`, the normalization helper (with
the precomputed reciprocal as its `inv_range` argument) returns
`max(0, (sample - black) / (white - black))`, and values above the white
level exceed 1 — no clamping above 1.0 happens at this stage. -/
theorem c3_normalize_no_upper_clamp (val : ℕ) (black white : ℤ)
    (hw : black < white) :
    normalize_pixel val black (1 / ((white - black : ℤ) : ℚ)) =
      max 0 ((((val : ℤ) - black : ℤ) : ℚ) / ((white - black : ℤ) : ℚ))
  ∧ (white < (val : ℤ) →
      1 < normalize_pixel val black (1 / ((white - black : ℤ) : ℚ))) := by
  have hr : (0 : ℚ) < ((white - black : ℤ) : ℚ) := by
    exact_mod_cast sub_pos.mpr hw
  constructor
  · unfold normalize_pixel
    rw [mul_one_div, max_comm]
  · intro hv
    unfold normalize_pixel
    rw [mul_one_div]
    have h1 : (1 : ℚ) < (((val : ℤ) - black : ℤ) : ℚ) / ((white - black : ℤ) : ℚ) := by
      rw [lt_div_iff hr]
      have : ((white - black : ℤ) : ℚ) < (((val : ℤ) - black : ℤ) : ℚ) := by
        exact_mod_cast sub_lt_sub_right hv black
      linarith
    exact lt_of_lt_of_le h1 (le_max_left _ _)

theorem c3_normalize_no_upper_clamp_witness :
    (0 : ℤ) < 2 ∧ 1 < normalize_pixel 3 0 (1 / (((2 : ℤ) - (0 : ℤ) : ℤ) : ℚ)) :=
  ⟨by decide, (c3_normalize_no_upper_clamp 3 0 2 (by decide)).2 (by decide)⟩

/-- C8: for fixed levels with `white_level > black_level` the
normalization helper is monotone in the raw sample, maps the black level
to exactly 0, and maps every sample below the black level to exactly 0,
never a negative value. -/
theorem c8_normalize_monotone (black white : ℤ) (hw : black < white) :
    (∀ a b : ℕ, a ≤ b →
      normalize_pixel a black (1 / ((white - black : ℤ) : ℚ)) ≤
        normalize_pixel b black (1 / ((white - black : ℤ) : ℚ)))
  ∧ (0 ≤ black →
      normalize_pixel black.toNat black (1 / ((white - black : ℤ) : ℚ)) = 0)
  ∧ (∀ s : ℕ, (s : ℤ) < black →
      normalize_pixel s black (1 / ((white - black : ℤ) : ℚ)) = 0) := by
  have hr : (0 : ℚ) < ((white - black : ℤ) : ℚ) := by
    exact_mod_cast sub_pos.mpr hw
  have hi : (0 : ℚ) ≤ 1 / ((white - black : ℤ) : ℚ) := by positivity
  refine ⟨?_, ?_, ?_⟩
  · intro a b hab
    unfold normalize_pixel
    refine max_le_max ?_ le_rfl
    refine mul_le_mul_of_nonneg_right ?_ hi
    have : ((a : ℤ) - black) ≤ ((b : ℤ) - black) := by
      omega
    exact_mod_cast this
  · intro hb
    unfold normalize_pixel
    rw [Int.toNat_of_nonneg hb]
    simp
  · intro s hs
    unfold normalize_pixel
    refine max_eq_right ?_
    refine mul_nonpos_of_nonpos_of_nonneg ?_ hi
    have : ((s : ℤ) - black) ≤ 0 := by omega
    exact_mod_cast this

theorem c8_normalize_monotone_witness :
    (0 : ℤ) < 2 ∧
      normalize_pixel 1 0 (1 / (((2 : ℤ) - (0 : ℤ) : ℤ) : ℚ)) ≤
        normalize_pixel 2 0 (1 / (((2 : ℤ) - (0 : ℤ) : ℤ) : ℚ)) :=
  ⟨by decide, (c8_normalize_monotone 0 2 (by decide)).1 1 2 (by decide)⟩

end RawPipeline

namespace RawPipeline

/-- C4: in the demosaic pipeline, a pixel on the 1-pixel border is left
entirely unwritten — its own unit writes nothing and no other unit
touches its three output slots — while every interior pixel's three
output slots are written exactly once, namely by the unit for that
pixel. -/
theorem c4_border_exclusion (width height x y : ℕ)
    (hx : x < width) (hy : y < height) :
    ((x = 0 ∨ x = width - 1 ∨ y = 0 ∨ y = height - 1) →
      unitWrites width height x y = ∅ ∧
      ∀ x' y' k, k < 3 →
        (y * width + x) * 3 + k ∉ unitWrites width height x' y')
  ∧ ((1 ≤ x ∧ x + 1 < width ∧ 1 ≤ y ∧ y + 1 < height) →
      ∀ k, k < 3 →
        (y * width + x) * 3 + k ∈ unitWrites width height x y ∧
        ∀ x' y', (y * width + x) * 3 + k ∈ unitWrites width height x' y' →
          x' = x ∧ y' = y) := by
  have hmem : ∀ x' y' n, n ∈ unitWrites width height x' y' →
      (1 ≤ x' ∧ x' + 1 < width ∧ 1 ≤ y' ∧ y' + 1 < height) ∧
      ∃ j, j < 3 ∧ n = (y' * width + x') * 3 + j := by
    intro x' y' n hn
    unfold unitWrites at hn
    by_cases hg : x' < 1 ∨ width - 1 ≤ x' ∨ y' < 1 ∨ height - 1 ≤ y'
    · rw [if_pos hg] at hn
      exact absurd hn (Finset.not_mem_empty n)
    · rw [if_neg hg] at hn
      push_neg at hg
      refine ⟨by omega, ?_⟩
      simp only [Finset.mem_insert, Finset.mem_singleton] at hn
      rcases hn with h | h | h
      · exact ⟨0, by omega, by omega⟩
      · exact ⟨1, by omega, h⟩
      · exact ⟨2, by omega, h⟩
  constructor
  · intro hborder
    constructor
    · unfold unitWrites
      rw [if_pos]
      omega
    · intro x' y' k hk hn
      obtain ⟨⟨hx1, hx2, hy1, hy2⟩, j, hj, hje⟩ := hmem x' y' _ hn
      have hflat : y * width + x = y' * width + x' ∧ k = j := by
        have h3 := hje
        generalize y * width + x = a at h3
        generalize y' * width + x' = b at h3
        omega
      obtain ⟨he, -⟩ := hflat
      obtain ⟨hxe, hye⟩ := flatIndex_inj hx (by omega) he
      omega
  · intro hint k hk
    constructor
    · unfold unitWrites
      rw [if_neg (by omega)]
      simp only [Finset.mem_insert, Finset.mem_singleton]
      omega
    · intro x' y' hn
      obtain ⟨⟨hx1, hx2, hy1, hy2⟩, j, hj, hje⟩ := hmem x' y' _ hn
      have hflat : y * width + x = y' * width + x' ∧ k = j := by
        have h3 := hje
        generalize y * width + x = a at h3
        generalize y' * width + x' = b at h3
        omega
      obtain ⟨he, -⟩ := hflat
      obtain ⟨hxe, hye⟩ := flatIndex_inj hx (by omega) he
      exact ⟨hxe.symm, hye.symm⟩

theorem c4_border_exclusion_witness :
    (0 : ℕ) < 3 ∧ unitWrites 3 3 0 1 = ∅ :=
  ⟨by decide,
    ((c4_border_exclusion 3 3 0 1 (by decide) (by decide)).1 (Or.inl rfl)).1⟩

end RawPipeline

namespace RawPipeline

lemma clampQ_nonneg (v : ℚ) : 0 ≤ clampQ v :=
  le_min (le_max_right v 0) zero_le_one

lemma clampQ_le_one (v : ℚ) : clampQ v ≤ 1 :=
  min_le_right _ _

/-- C1: both entry points compute the written triplet by the spec's
ordered steps — camera-to-XYZ 3x4 affine transform with the fourth
column as an unconditional constant offset, then the fixed XYZ-to-sRGB
3x3 matrix, then the exposure factor 3.5, then the independent
per-channel clamp — and every component of `colorTransformSpec` (hence
every written output component) lies in `[0, 1]`. -/
theorem c1_ordered_steps_and_bounds (inb rgb_in : ℕ → ℕ) (width height : ℕ)
    (wb_r wb_g wb_b : ℚ) (black_level white_level : ℤ)
    (cam_to_xyz : Fin 12 → ℚ) (x y : ℕ) :
    (1 ≤ x → x + 1 < width → 1 ≤ y → y + 1 < height →
      debayer16_to_xyz inb width height wb_r wb_g wb_b black_level
          white_level cam_to_xyz x y =
        some (colorTransformSpec cam_to_xyz
          (get_red inb x y width black_level
            (1 / ((white_level - black_level : ℤ) : ℚ)) * wb_r)
          (get_green inb x y width black_level
            (1 / ((white_level - black_level : ℤ) : ℚ)) * wb_g)
          (get_blue inb x y width black_level
            (1 / ((white_level - black_level : ℤ) : ℚ)) * wb_b)))
  ∧ (x < width → y < height →
      apply_color_pipeline rgb_in width height wb_r wb_g wb_b black_level
          white_level cam_to_xyz x y =
        some (colorTransformSpec cam_to_xyz
          (max ((((rgb_in ((y * width + x) * 3) : ℤ) - black_level : ℤ) : ℚ) *
            (1 / ((white_level - black_level : ℤ) : ℚ))) 0 * wb_r)
          (max ((((rgb_in ((y * width + x) * 3 + 1) : ℤ) - black_level : ℤ) : ℚ) *
            (1 / ((white_level - black_level : ℤ) : ℚ))) 0 * wb_g)
          (max ((((rgb_in ((y * width + x) * 3 + 2) : ℤ) - black_level : ℤ) : ℚ) *
            (1 / ((white_level - black_level : ℤ) : ℚ))) 0 * wb_b)))
  ∧ (∀ r g b : ℚ,
      0 ≤ (colorTransformSpec cam_to_xyz r g b).1 ∧
      (colorTransformSpec cam_to_xyz r g b).1 ≤ 1 ∧
      0 ≤ (colorTransformSpec cam_to_xyz r g b).2.1 ∧
      (colorTransformSpec cam_to_xyz r g b).2.1 ≤ 1 ∧
      0 ≤ (colorTransformSpec cam_to_xyz r g b).2.2 ∧
      (colorTransformSpec cam_to_xyz r g b).2.2 ≤ 1) := by
  refine ⟨?_, ?_, ?_⟩
  · intro hx1 hx2 hy1 hy2
    have hg : ¬(x < 1 ∨ width - 1 ≤ x ∨ y < 1 ∨ height - 1 ≤ y) := by omega
    simp only [debayer16_to_xyz, colorTransformSpec, if_neg hg, fmaf, clampQ,
      Prod.mk.injEq, Option.some.injEq]
    refine ⟨?_, ?_, ?_⟩ <;> (congr 2 <;> ring)
  · intro hx hy
    have hg : ¬(width ≤ x ∨ height ≤ y) := by omega
    simp only [apply_color_pipeline, colorTransformSpec, if_neg hg, fmaf, clampQ,
      Prod.mk.injEq, Option.some.injEq]
    refine ⟨?_, ?_, ?_⟩ <;> (congr 2 <;> ring)
  · intro r g b
    exact ⟨clampQ_nonneg _, clampQ_le_one _, clampQ_nonneg _, clampQ_le_one _,
      clampQ_nonneg _, clampQ_le_one _⟩

theorem c1_ordered_steps_and_bounds_witness :
    (1 : ℕ) ≤ 1 ∧
      debayer16_to_xyz (fun _ => 1) 3 3 1 1 1 0 2 (fun _ => 1) 1 1 =
        some (colorTransformSpec (fun _ => 1)
          (get_red (fun _ => 1) 1 1 3 0 (1 / (((2 : ℤ) - (0 : ℤ) : ℤ) : ℚ)) * 1)
          (get_green (fun _ => 1) 1 1 3 0 (1 / (((2 : ℤ) - (0 : ℤ) : ℤ) : ℚ)) * 1)
          (get_blue (fun _ => 1) 1 1 3 0 (1 / (((2 : ℤ) - (0 : ℤ) : ℤ) : ℚ)) * 1)) :=
  ⟨le_rfl,
    (c1_ordered_steps_and_bounds (fun _ => 1) (fun _ => 1) 3 3 1 1 1 0 2
      (fun _ => 1) 1 1).1 le_rfl (by decide) le_rfl (by decide)⟩

/-- C5: if the pre-demosaiced integer buffer round-trips through the
Color-only pipeline's normalization to exactly the per-pixel RGB the
Demosaic component reconstructs from the mosaic, then
`apply_color_pipeline` on that buffer equals `debayer16_to_xyz` on the
mosaic at every interior pixel. -/
theorem c5_composition_equivalence (inb rgb_in : ℕ → ℕ) (width height : ℕ)
    (wb_r wb_g wb_b : ℚ) (black_level white_level : ℤ)
    (cam_to_xyz : Fin 12 → ℚ) (x y : ℕ)
    (hw : black_level < white_level)
    (hx1 : 1 ≤ x) (hx2 : x + 1 < width) (hy1 : 1 ≤ y) (hy2 : y + 1 < height)
    (hR : max ((((rgb_in ((y * width + x) * 3) : ℤ) - black_level : ℤ) : ℚ) *
        (1 / ((white_level - black_level : ℤ) : ℚ))) 0 =
      get_red inb x y width black_level
        (1 / ((white_level - black_level : ℤ) : ℚ)))
    (hG : max ((((rgb_in ((y * width + x) * 3 + 1) : ℤ) - black_level : ℤ) : ℚ) *
        (1 / ((white_level - black_level : ℤ) : ℚ))) 0 =
      get_green inb x y width black_level
        (1 / ((white_level - black_level : ℤ) : ℚ)))
    (hB : max ((((rgb_in ((y * width + x) * 3 + 2) : ℤ) - black_level : ℤ) : ℚ) *
        (1 / ((white_level - black_level : ℤ) : ℚ))) 0 =
      get_blue inb x y width black_level
        (1 / ((white_level - black_level : ℤ) : ℚ))) :
    apply_color_pipeline rgb_in width height wb_r wb_g wb_b black_level
        white_level cam_to_xyz x y =
      debayer16_to_xyz inb width height wb_r wb_g wb_b black_level
        white_level cam_to_xyz x y := by
  have hg1 : ¬(width ≤ x ∨ height ≤ y) := by omega
  have hg2 : ¬(x < 1 ∨ width - 1 ≤ x ∨ y < 1 ∨ height - 1 ≤ y) := by omega
  simp only [apply_color_pipeline, debayer16_to_xyz, if_neg hg1, if_neg hg2]
  rw [hR, hG, hB]

end RawPipeline

namespace RawPipeline

theorem c5_composition_equivalence_witness :
    (0 : ℤ) < 2 ∧
      apply_color_pipeline (fun _ => 1) 3 3 1 1 1 0 2 (fun _ => 1) 1 1 =
        debayer16_to_xyz (fun _ => 1) 3 3 1 1 1 0 2 (fun _ => 1) 1 1 :=
  ⟨by decide,
    c5_composition_equivalence (fun _ => 1) (fun _ => 1) 3 3 1 1 1 0 2
      (fun _ => 1) 1 1 (by decide) le_rfl (by decide) le_rfl (by decide)
      (by norm_num [get_red, normalize_pixel, PIX, Nat.and_one_is_mod, max_def])
      (by norm_num [get_green, normalize_pixel, PIX, Nat.and_one_is_mod, max_def])
      (by norm_num [get_blue, normalize_pixel, PIX, Nat.and_one_is_mod, max_def])⟩

lemma normalize_pixel_eq_v2 (val : ℕ) (black : ℤ) (range : ℚ)
    (hr : 0 < range) :
    normalize_pixel val black (1 / range) = V2.normalize val black range := by
  unfold normalize_pixel V2.normalize
  rcases le_or_lt ((val : ℤ) - black) 0 with h | h
  · rw [max_eq_right h]
    rw [max_eq_right (mul_nonpos_of_nonpos_of_nonneg
      (by exact_mod_cast h) (by positivity))]
    simp
  · have h1 : (0 : ℚ) ≤ (((val : ℤ) - black : ℤ) : ℚ) := by exact_mod_cast h.le
    have h2 : (0 : ℚ) ≤ (((val : ℤ) - black : ℤ) : ℚ) * (1 / range) :=
      mul_nonneg h1 (by positivity)
    rw [max_eq_left h.le, max_eq_left h2]
    exact mul_one_div _ _

lemma get_red_eq_v2 (inb : ℕ → ℕ) (x y w : ℕ) (black : ℤ) (range : ℚ)
    (hr : 0 < range) :
    get_red inb x y w black (1 / range) = V2.get_red inb x y w black range := by
  have hn : ∀ v : ℕ, normalize_pixel v black range⁻¹ = V2.normalize v black range := by
    intro v
    rw [← one_div]
    exact normalize_pixel_eq_v2 v black range hr
  unfold get_red V2.get_red
  rcases Nat.mod_two_eq_zero_or_one x with hx | hx <;>
    rcases Nat.mod_two_eq_zero_or_one y with hy | hy <;>
      (simp only [Nat.and_one_is_mod, hx, hy]
       norm_num [hn]
       try ring)

lemma get_green_eq_v2 (inb : ℕ → ℕ) (x y w : ℕ) (black : ℤ) (range : ℚ)
    (hr : 0 < range) :
    get_green inb x y w black (1 / range) = V2.get_green inb x y w black range := by
  have hn : ∀ v : ℕ, normalize_pixel v black range⁻¹ = V2.normalize v black range := by
    intro v
    rw [← one_div]
    exact normalize_pixel_eq_v2 v black range hr
  unfold get_green V2.get_green
  rcases Nat.mod_two_eq_zero_or_one (x + y) with h | h <;>
    (simp only [Nat.and_one_is_mod, h]
     norm_num [hn]
     try ring)

lemma get_blue_eq_v2 (inb : ℕ → ℕ) (x y w : ℕ) (black : ℤ) (range : ℚ)
    (hr : 0 < range) :
    get_blue inb x y w black (1 / range) = V2.get_blue inb x y w black range := by
  have hn : ∀ v : ℕ, normalize_pixel v black range⁻¹ = V2.normalize v black range := by
    intro v
    rw [← one_div]
    exact normalize_pixel_eq_v2 v black range hr
  unfold get_blue V2.get_blue
  rcases Nat.mod_two_eq_zero_or_one x with hx | hx <;>
    rcases Nat.mod_two_eq_zero_or_one y with hy | hy <;>
      (simp only [Nat.and_one_is_mod, hx, hy]
       norm_num [hn]
       try ring)

/-- C6: under exact arithmetic, the optimised (bit-trick / FMA /
precomputed-reciprocal) kernel variant and the plain (modulo / lambda /
division) kernel variant of `debayer16_to_xyz` produce equal output at
every interior pixel whenever `white_level > black_level`. -/
theorem c6_variant_equivalence (inb : ℕ → ℕ) (width height : ℕ)
    (wb_r wb_g wb_b : ℚ) (black_level white_level : ℤ)
    (cam_to_xyz : Fin 12 → ℚ) (x y : ℕ)
    (hw : black_level < white_level)
    (hx1 : 1 ≤ x) (hx2 : x + 1 < width) (hy1 : 1 ≤ y) (hy2 : y + 1 < height) :
    debayer16_to_xyz inb width height wb_r wb_g wb_b black_level white_level
        cam_to_xyz x y =
      V2.debayer16_to_xyz inb width height wb_r wb_g wb_b black_level
        white_level cam_to_xyz x y := by
  have hr : (0 : ℚ) < ((white_level - black_level : ℤ) : ℚ) := by
    exact_mod_cast sub_pos.mpr hw
  have hg : ¬(x < 1 ∨ width - 1 ≤ x ∨ y < 1 ∨ height - 1 ≤ y) := by omega
  have hR := get_red_eq_v2 inb x y width black_level _ hr
  have hG := get_green_eq_v2 inb x y width black_level _ hr
  have hB := get_blue_eq_v2 inb x y width black_level _ hr
  simp only [debayer16_to_xyz, V2.debayer16_to_xyz, if_neg hg, fmaf, clampQ,
    hR, hG, hB, Prod.mk.injEq, Option.some.injEq]
  refine ⟨?_, ?_, ?_⟩ <;> (congr 2 <;> ring)

theorem c6_variant_equivalence_witness :
    (0 : ℤ) < 2 ∧
      debayer16_to_xyz (fun _ => 1) 3 3 1 1 1 0 2 (fun _ => 1) 1 1 =
        V2.debayer16_to_xyz (fun _ => 1) 3 3 1 1 1 0 2 (fun _ => 1) 1 1 :=
  ⟨by decide,
    c6_variant_equivalence (fun _ => 1) 3 3 1 1 1 0 2 (fun _ => 1) 1 1
      (by decide) le_rfl (by decide) le_rfl (by decide)⟩

end RawPipeline

namespace RawPipeline

/-- An IEEE-754 binary32 value for the claims about special-value
handling: `finite q` carries the exact value (the model tracks NaN and
the infinities precisely; finite results are carried exactly, since
rounding never affects which of the clamp's branches is taken), plus
`inf`, `neginf` and `nan`.  The two IEEE zeros collapse to `finite 0`. -/
inductive F32 : Type
  | finite (q : ℚ)
  | inf
  | neginf
  | nan
  deriving DecidableEq

namespace F32

/-- CUDA `fmaxf`: if one operand is NaN the other is returned; an
infinity dominates finite values. -/
def fmaxf : F32 → F32 → F32
  | nan, b => b
  | a, nan => a
  | inf, _ => inf
  | _, inf => inf
  | neginf, b => b
  | a, neginf => a
  | finite p, finite q => finite (max p q)

/-- CUDA `fminf`: if one operand is NaN the other is returned; a
negative infinity dominates finite values. -/
def fminf : F32 → F32 → F32
  | nan, b => b
  | a, nan => a
  | neginf, _ => neginf
  | _, neginf => neginf
  | inf, b => b
  | a, inf => a
  | finite p, finite q => finite (min p q)

/-- IEEE multiplication on the special-value skeleton (finite values
exact). `inf * 0 = nan`. -/
def mul : F32 → F32 → F32
  | nan, _ => nan
  | _, nan => nan
  | inf, inf => inf
  | inf, neginf => neginf
  | neginf, inf => neginf
  | neginf, neginf => inf
  | inf, finite q => if q = 0 then nan else if 0 < q then inf else neginf
  | finite q, inf => if q = 0 then nan else if 0 < q then inf else neginf
  | neginf, finite q => if q = 0 then nan else if 0 < q then neginf else inf
  | finite q, neginf => if q = 0 then nan else if 0 < q then neginf else inf
  | finite p, finite q => finite (p * q)

/-- IEEE addition on the special-value skeleton (finite values exact).
`inf + neginf = nan`. -/
def add : F32 → F32 → F32
  | nan, _ => nan
  | _, nan => nan
  | inf, neginf => nan
  | neginf, inf => nan
  | inf, _ => inf
  | _, inf => inf
  | neginf, _ => neginf
  | _, neginf => neginf
  | finite p, finite q => finite (p + q)

/-- IEEE division on the special-value skeleton (finite values exact).
A nonzero finite value divided by (positive) zero gives a signed
infinity; `0 / 0 = nan`. -/
def div : F32 → F32 → F32
  | nan, _ => nan
  | _, nan => nan
  | inf, inf => nan
  | inf, neginf => nan
  | neginf, inf => nan
  | neginf, neginf => nan
  | inf, finite q => if 0 ≤ q then inf else neginf
  | neginf, finite q => if 0 ≤ q then neginf else inf
  | finite _, inf => finite 0
  | finite _, neginf => finite 0
  | finite p, finite q =>
      if q = 0 then (if p = 0 then nan else if 0 < p then inf else neginf)
      else finite (p / q)

/-- `__fmaf_rn(a, b, c)` on the special-value skeleton: the product's
special-value rules followed by the addition's. -/
def fmaf (a b c : F32) : F32 :=
  add (mul a b) c

end F32

/-- `fminf(fmaxf(v, 0.0f), 1.0f)`: the output clamp over the `F32`
special-value model. -/
def clamp32 (v : F32) : F32 :=
  F32.fminf (F32.fmaxf v (F32.finite 0)) (F32.finite 1)

/-- An `F32` value is a finite number in the unit interval. -/
def inUnit (v : F32) : Prop :=
  ∃ q : ℚ, v = F32.finite q ∧ 0 ≤ q ∧ q ≤ 1

/-- `apply_color_pipeline` over the `F32` special-value model:
identical statement order to `color_pipeline.cu`, with every
floating-point operation replaced by its `F32` counterpart, so that the
non-finite intermediates produced by degenerate parameters (for example
`white_level <= black_level`) are propagated as IEEE mandates. -/
def apply_color_pipeline32 (rgb_in : ℕ → ℕ) (width height : ℕ)
    (wb_r wb_g wb_b : ℚ) (black_level white_level : ℤ)
    (cam_to_xyz : Fin 12 → ℚ) (x y : ℕ) : Option (F32 × F32 × F32) :=
  if width ≤ x ∨ height ≤ y then none
  else
    let idx := (y * width + x) * 3
    let inv_range := F32.div (F32.finite 1)
      (F32.finite ((white_level - black_level : ℤ) : ℚ))
    let r_raw := rgb_in idx
    let g_raw := rgb_in (idx + 1)
    let b_raw := rgb_in (idx + 2)
    let r_norm := F32.fmaxf
      (F32.mul (F32.finite (((r_raw : ℤ) - black_level : ℤ) : ℚ)) inv_range)
      (F32.finite 0)
    let g_norm := F32.fmaxf
      (F32.mul (F32.finite (((g_raw : ℤ) - black_level : ℤ) : ℚ)) inv_range)
      (F32.finite 0)
    let b_norm := F32.fmaxf
      (F32.mul (F32.finite (((b_raw : ℤ) - black_level : ℤ) : ℚ)) inv_range)
      (F32.finite 0)
    let cam_r := F32.mul r_norm (F32.finite wb_r)
    let cam_g := F32.mul g_norm (F32.finite wb_g)
    let cam_b := F32.mul b_norm (F32.finite wb_b)
    let xyz_x := F32.fmaf (F32.finite (cam_to_xyz 0)) cam_r
      (F32.fmaf (F32.finite (cam_to_xyz 1)) cam_g
        (F32.fmaf (F32.finite (cam_to_xyz 2)) cam_b (F32.finite (cam_to_xyz 3))))
    let xyz_y := F32.fmaf (F32.finite (cam_to_xyz 4)) cam_r
      (F32.fmaf (F32.finite (cam_to_xyz 5)) cam_g
        (F32.fmaf (F32.finite (cam_to_xyz 6)) cam_b (F32.finite (cam_to_xyz 7))))
    let xyz_z := F32.fmaf (F32.finite (cam_to_xyz 8)) cam_r
      (F32.fmaf (F32.finite (cam_to_xyz 9)) cam_g
        (F32.fmaf (F32.finite (cam_to_xyz 10)) cam_b (F32.finite (cam_to_xyz 11))))
    let srgb_r := F32.mul (F32.fmaf (F32.finite 3.2404542) xyz_x
      (F32.fmaf (F32.finite (-1.5371385)) xyz_y
        (F32.mul (F32.finite (-0.4985314)) xyz_z))) (F32.finite 3.5)
    let srgb_g := F32.mul (F32.fmaf (F32.finite (-0.9692660)) xyz_x
      (F32.fmaf (F32.finite 1.8760108) xyz_y
        (F32.mul (F32.finite 0.0415560) xyz_z))) (F32.finite 3.5)
    let srgb_b := F32.mul (F32.fmaf (F32.finite 0.0556434) xyz_x
      (F32.fmaf (F32.finite (-0.2040259)) xyz_y
        (F32.mul (F32.finite 1.0572252) xyz_z))) (F32.finite 3.5)
    some (clamp32 srgb_r, clamp32 srgb_g, clamp32 srgb_b)

lemma clamp32_inUnit (v : F32) : inUnit (clamp32 v) := by
  cases v with
  | finite q =>
      refine ⟨min (max q 0) 1, ?_, ?_, ?_⟩
      · rfl
      · exact le_min (le_max_right q 0) zero_le_one
      · exact min_le_right _ _
  | inf => exact ⟨1, rfl, zero_le_one, le_rfl⟩
  | neginf => exact ⟨0, rfl, le_rfl, zero_le_one⟩
  | nan => exact ⟨0, rfl, le_rfl, zero_le_one⟩

/-- C9: the output clamp `fminf(fmaxf(v, 0.0f), 1.0f)` is idempotent on
every single-precision input, finite or not, NaN and the two infinities
included. -/
theorem c9_clamp_idempotent (v : F32) : clamp32 (clamp32 v) = clamp32 v := by
  obtain ⟨q, hq, h0, h1⟩ := clamp32_inUnit v
  rw [hq]
  show F32.fminf (F32.fmaxf (F32.finite q) (F32.finite 0)) (F32.finite 1) = _
  rw [show F32.fmaxf (F32.finite q) (F32.finite 0) = F32.finite q by
    simp [F32.fmaxf, max_eq_left h0]]
  simp [F32.fminf, min_eq_left h1]

/-- C10: the clamp maps every `F32` value, NaN and infinities included,
into `[0, 1]` (NaN to 0), and consequently every component the color
kernel writes is a finite value in `[0, 1]` even under degenerate
parameters such as `white_level <= black_level`. -/
theorem c10_clamp_range_safety (rgb_in : ℕ → ℕ) (width height : ℕ)
    (wb_r wb_g wb_b : ℚ) (black_level white_level : ℤ)
    (cam_to_xyz : Fin 12 → ℚ) (x y : ℕ) :
    (∀ v : F32, inUnit (clamp32 v))
  ∧ clamp32 F32.nan = F32.finite 0
  ∧ (∀ t : F32 × F32 × F32,
      apply_color_pipeline32 rgb_in width height wb_r wb_g wb_b black_level
          white_level cam_to_xyz x y = some t →
        inUnit t.1 ∧ inUnit t.2.1 ∧ inUnit t.2.2)
  ∧ (∀ t : ℚ × ℚ × ℚ,
      debayer16_to_xyz rgb_in width height wb_r wb_g wb_b black_level
          white_level cam_to_xyz x y = some t →
        0 ≤ t.1 ∧ t.1 ≤ 1 ∧ 0 ≤ t.2.1 ∧ t.2.1 ≤ 1 ∧ 0 ≤ t.2.2 ∧ t.2.2 ≤ 1) := by
  refine ⟨clamp32_inUnit, rfl, ?_, ?_⟩
  · intro t ht
    by_cases hg : width ≤ x ∨ height ≤ y
    · rw [apply_color_pipeline32, if_pos hg] at ht
      cases ht
    · rw [apply_color_pipeline32, if_neg hg] at ht
      simp only [Option.some.injEq] at ht
      subst ht
      exact ⟨clamp32_inUnit _, clamp32_inUnit _, clamp32_inUnit _⟩
  · intro t ht
    by_cases hg : x < 1 ∨ width - 1 ≤ x ∨ y < 1 ∨ height - 1 ≤ y
    · rw [debayer16_to_xyz, if_pos hg] at ht
      cases ht
    · rw [debayer16_to_xyz, if_neg hg] at ht
      simp only [Option.some.injEq] at ht
      subst ht
      exact ⟨clampQ_nonneg _, clampQ_le_one _, clampQ_nonneg _, clampQ_le_one _,
        clampQ_nonneg _, clampQ_le_one _⟩

theorem c10_clamp_range_safety_witness :
    apply_color_pipeline32 (fun _ => 5) 1 1 1 1 1 0 0 (fun _ => 1) 0 0 =
      some (F32.finite 0, F32.finite 0, F32.finite 0) ∧
    inUnit (F32.finite 0, F32.finite 0, F32.finite 0).1 :=
  ⟨by norm_num [apply_color_pipeline32, clamp32, F32.div, F32.mul, F32.add,
      F32.fmaf, F32.fmaxf, F32.fminf, min_def, max_def],
    ((c10_clamp_range_safety (fun _ => 5) 1 1 1 1 1 0 0 (fun _ => 1) 0 0).2.2.1
      (F32.finite 0, F32.finite 0, F32.finite 0)
      (by norm_num [apply_color_pipeline32, clamp32, F32.div, F32.mul, F32.add,
        F32.fmaf, F32.fmaxf, F32.fminf, min_def, max_def])).1⟩

end RawPipeline

namespace RawPipeline

/-- Fuel-bounded floor of the base-2 logarithm on `ℕ` (fuel first, so
the recursion is structural and evaluates inside the kernel). -/
def log2fuel : ℕ → ℕ → ℕ
  | 0, _ => 0
  | f + 1, n => if n < 2 then 0 else log2fuel f (n / 2) + 1

/-- `log2N n` = number of halvings of `n` down to `1` (0 for `n ≤ 1`),
i.e. the floor of `log2 n` for positive `n`. -/
def log2N (n : ℕ) : ℕ :=
  log2fuel n n

/-- `2^e` over ℚ for an integer exponent `e`, written so that it
evaluates by kernel reduction. -/
def pow2z (e : ℤ) : ℚ :=
  match e with
  | .ofNat n => ((2 ^ n : ℕ) : ℚ)
  | .negSucc n => 1 / ((2 ^ (n + 1) : ℕ) : ℚ)

/-- Floor of the base-2 logarithm of a positive rational, computed from
the digit counts of numerator and denominator plus one correction
test. -/
def floorLog2 (a : ℚ) : ℤ :=
  let e0 : ℤ := (log2N a.num.toNat : ℤ) - (log2N a.den : ℤ)
  if pow2z e0 ≤ a then e0 else e0 - 1

/-- Round a rational to the nearest integer, ties to even. -/
def rne (x : ℚ) : ℤ :=
  let f := ⌊x⌋
  let r := x - (f : ℚ)
  if r < 1 / 2 then f
  else if 1 / 2 < r then f + 1
  else if f % 2 = 0 then f else f + 1

/-- IEEE-754 binary32 rounding (round to nearest, ties to even) as an
exact function on rationals: the significand is quantized to 24 bits at
the value's binade, with the subnormal quantum floor at exponent -126.
Overflow to infinity is not modelled; every value reachable in the
normalization claims (16-bit samples, integer levels) is far below the
binary32 overflow threshold. -/
def roundF32 (q : ℚ) : ℚ :=
  if q = 0 then 0
  else
    let a : ℚ := if q < 0 then -q else q
    let e0 := floorLog2 a
    let e : ℤ := if e0 < -126 then -126 else e0
    let ulp : ℚ := pow2z (e - 23)
    (if q < 0 then (-1 : ℚ) else 1) * ((rne (a / ulp) : ℤ) : ℚ) * ulp

/-- The C `(float)` conversion of an integer. -/
def toF32 (n : ℤ) : ℚ :=
  roundF32 (n : ℚ)

/-- Normalization as the optimised kernel computes it at binary32
precision: `inv_range = 1.0f / (float)(white - black)` rounded once,
then `fmaxf((float)v * inv_range, 0.0f)` with the product rounded. -/
def normalizeRM (val : ℕ) (black white : ℤ) : ℚ :=
  let range := toF32 (white - black)
  let inv := roundF32 (1 / range)
  let v := toF32 ((val : ℤ) - black)
  max (roundF32 (v * inv)) 0

/-- Normalization by direct division at binary32 precision:
`fmaxf((float)v / (float)(white - black), 0.0f)` with the quotient
rounded once. -/
def normalizeDIV (val : ℕ) (black white : ℤ) : ℚ :=
  let range := toF32 (white - black)
  let v := toF32 ((val : ℤ) - black)
  max (roundF32 (v / range)) 0

/-- C7 counterexample: at sample 5 with black_level 0 and white_level 3
the reciprocal-multiply normalization and the direct-division
normalization differ in the last bit of the binary32 result
(`fl(5 * fl(1/3)) = 6990507/4194304` but `fl(5/3) = 13981013/8388608`). -/
lemma pow2z_negSucc (k : ℕ) : pow2z (Int.negSucc k) = 1 / ((2 ^ (k + 1) : ℕ) : ℚ) :=
  rfl

lemma roundF32_pos_eval (q : ℚ) (e n : ℤ) (hq : 0 < q)
    (h1 : floorLog2 q = e) (h2 : ¬ e < -126)
    (h3 : rne (q / pow2z (e - 23)) = n) :
    roundF32 q = (n : ℚ) * pow2z (e - 23) := by
  simp only [roundF32]
  rw [if_neg hq.ne']
  rw [if_neg (not_lt.mpr hq.le), if_neg (not_lt.mpr hq.le)]
  rw [h1, if_neg h2, h3, one_mul]

set_option maxRecDepth 2048 in
lemma toF32_three : toF32 (3 - 0) = 3 := by
  have c3 : (((3 : ℤ) - 0 : ℤ) : ℚ) = 3 := by norm_num
  rw [toF32, c3, roundF32_pos_eval 3 1 12582912 (by norm_num)
    (by with_unfolding_all decide) (by decide) (by with_unfolding_all decide)]
  rw [show ((1 : ℤ) - 23) = Int.negSucc 21 from rfl, pow2z_negSucc]
  norm_num

set_option maxRecDepth 2048 in
lemma toF32_five : toF32 (((5 : ℕ) : ℤ) - 0) = 5 := by
  have c5 : ((((5 : ℕ) : ℤ) - 0 : ℤ) : ℚ) = 5 := by norm_num
  rw [toF32, c5, roundF32_pos_eval 5 2 10485760 (by norm_num)
    (by with_unfolding_all decide) (by decide) (by with_unfolding_all decide)]
  rw [show ((2 : ℤ) - 23) = Int.negSucc 20 from rfl, pow2z_negSucc]
  norm_num

set_option maxRecDepth 2048 in
lemma roundF32_third : roundF32 (1 / (3 : ℚ)) = 11184811 / 33554432 := by
  rw [roundF32_pos_eval (1 / 3) (-2) 11184811 (by norm_num)
    (by with_unfolding_all decide) (by decide) (by with_unfolding_all decide)]
  rw [show ((-2 : ℤ) - 23) = Int.negSucc 24 from rfl, pow2z_negSucc]
  norm_num

/-- C7 counterexample: at sample 5 with black_level 0 and white_level 3
the reciprocal-multiply normalization and the direct-division
normalization differ in the last bit of the binary32 result
(`fl(5 * fl(1/3)) = 6990507/4194304` but `fl(5/3) = 13981013/8388608`). -/
theorem c7_reciprocal_counterexample :
    normalizeRM 5 0 3 ≠ normalizeDIV 5 0 3 := by
  set_option maxRecDepth 2048 in
  simp only [normalizeRM, normalizeDIV, toF32_three, toF32_five, roundF32_third]
  have e1 : roundF32 ((5 : ℚ) * (11184811 / 33554432)) = 6990507 / 4194304 := by
    have c : ((5 : ℚ) * (11184811 / 33554432)) = 55924055 / 33554432 := by norm_num
    rw [c, roundF32_pos_eval (55924055 / 33554432) 0 13981014 (by norm_num)
      (by with_unfolding_all decide) (by decide) (by with_unfolding_all decide)]
    rw [show ((0 : ℤ) - 23) = Int.negSucc 22 from rfl, pow2z_negSucc]
    norm_num
  have e2 : roundF32 ((5 : ℚ) / 3) = 13981013 / 8388608 := by
    rw [roundF32_pos_eval (5 / 3) 0 13981013 (by norm_num)
      (by with_unfolding_all decide) (by decide) (by with_unfolding_all decide)]
    rw [show ((0 : ℤ) - 23) = Int.negSucc 22 from rfl, pow2z_negSucc]
    norm_num
  rw [e1, e2]
  norm_num [max_def]

/-- C7 amended: multiply-by-reciprocal is bit-identical to direct
division whenever the rounded reciprocal of the range is exact — i.e.
`fl(1/range) = 1/range`, which holds in particular when
`white_level - black_level` is a power of two — but not for arbitrary
ranges (see the counterexample at range 3). -/
theorem c7_reciprocal_exact_when_representable (val : ℕ) (black white : ℤ)
    (hw : black < white)
    (hrep : roundF32 (1 / toF32 (white - black)) = 1 / toF32 (white - black)) :
    normalizeRM val black white = normalizeDIV val black white := by
  simp only [normalizeRM, normalizeDIV, hrep, mul_one_div]

set_option maxRecDepth 2048 in
lemma toF32_two : toF32 (2 - 0) = 2 := by
  have c2 : (((2 : ℤ) - 0 : ℤ) : ℚ) = 2 := by norm_num
  rw [toF32, c2, roundF32_pos_eval 2 1 8388608 (by norm_num)
    (by with_unfolding_all decide) (by decide) (by with_unfolding_all decide)]
  rw [show ((1 : ℤ) - 23) = Int.negSucc 21 from rfl, pow2z_negSucc]
  norm_num

set_option maxRecDepth 2048 in
lemma roundF32_half : roundF32 (1 / (2 : ℚ)) = 1 / 2 := by
  rw [roundF32_pos_eval (1 / 2) (-1) 8388608 (by norm_num)
    (by with_unfolding_all decide) (by decide) (by with_unfolding_all decide)]
  rw [show ((-1 : ℤ) - 23) = Int.negSucc 23 from rfl, pow2z_negSucc]
  norm_num

theorem c7_reciprocal_exact_when_representable_witness :
    (0 : ℤ) < 2 ∧ normalizeRM 7 0 2 = normalizeDIV 7 0 2 :=
  ⟨by decide,
    c7_reciprocal_exact_when_representable 7 0 2 (by decide)
      (by rw [toF32_two, roundF32_half])⟩

end RawPipeline
